import Mathlib

/-!
Verification of the Ordered Position Index of task-nerd.

This file gives a shallow embedding of the ordering core of
`src/task_nerd/database.py` (the position-key allocator, the rebalancer and
the task creation operations) and of the command line surface of
`src/task_nerd/cli.py`, together with theorems settling the specified
properties.  The store is modelled as a list of rows in insertion (rowid)
order; every SQL statement used by the code is embedded as a pure function
on that list.
-/

/-- Status values of a task, mirroring `TaskStatus` in `models.py`. -/
inductive TaskStatus where
  | pending
  | in_progress
  | completed
  | cancelled
deriving DecidableEq, Repr

/-- One row of the `tasks` table.  Fields irrelevant to every claim
(priority and the three timestamps) are omitted; `order_value` is the
position key, a SQLite INTEGER modelled as `Int`. -/
structure TaskRow where
  id : Nat
  title : String
  description : String
  status : TaskStatus
  category : Option String
  order_value : Int
deriving DecidableEq, Repr

/-- Embedding of `SELECT ... FROM tasks WHERE id = ?` followed by
`fetchone()`: the first row carrying the given id. -/
def findTask (tasks : List TaskRow) (tid : Nat) : Option TaskRow :=
  tasks.find? (fun t => t.id = tid)

/-- The `order_value` column of all rows of one category, in row order;
the category filter is `category IS NULL` when `cat` is `none` and
`category = ?` otherwise, exactly as built in `database.py`. -/
def catKeys (tasks : List TaskRow) (cat : Option String) : List Int :=
  (tasks.filter (fun t => t.category = cat)).map (fun t => t.order_value)

/-- Embedding of SQL `MAX` over a selected column: `none` on an empty
selection (SQL NULL), otherwise the greatest value. -/
def maxKey? : List Int → Option Int
  | [] => none
  | x :: xs =>
    match maxKey? xs with
    | none => some x
    | some m => some (max x m)

/-- Embedding of `SELECT ... ORDER BY order_value ASC LIMIT 1`: `none` on
an empty selection, otherwise the least value. -/
def minKey? : List Int → Option Int
  | [] => none
  | x :: xs =>
    match minKey? xs with
    | none => some x
    | some m => some (min x m)

/-- Embedding of `SELECT MAX(order_value) ... WHERE <category filter>`
followed by the `max_order if not None else 0` coalescing and the `+ 1000`
used by every append-at-end branch of `database.py`. -/
def appendKey (tasks : List TaskRow) (cat : Option String) : Int :=
  (maxKey? (catKeys tasks cat)).getD 0 + 1000

/-- Embedding of `SELECT order_value ... AND order_value < ? ORDER BY
order_value DESC LIMIT 1`: the greatest key strictly below `b`. -/
def prevKeyBelow (keys : List Int) (b : Int) : Option Int :=
  maxKey? (keys.filter (fun k => k < b))

/-- Embedding of `SELECT order_value ... AND order_value > ? ORDER BY
order_value ASC LIMIT 1`: the least key strictly above `a`. -/
def nextKeyAbove (keys : List Int) (a : Int) : Option Int :=
  minKey? (keys.filter (fun k => a < k))

/-- Comparison used by `ORDER BY order_value ASC` on task rows. -/
def ordLe (a b : TaskRow) : Prop := a.order_value ≤ b.order_value

instance : DecidableRel ordLe :=
  fun a b => inferInstanceAs (Decidable (a.order_value ≤ b.order_value))

instance : IsTotal TaskRow ordLe := ⟨fun a b => le_total a.order_value b.order_value⟩

instance : IsTrans TaskRow ordLe := ⟨fun _ _ _ h1 h2 => le_trans h1 h2⟩

/-- Embedding of `SELECT ... WHERE <category filter> ORDER BY order_value
ASC`: the rows of one category sorted ascending by key (stable, i.e. rows
with equal keys keep their rowid order, which is how SQLite returns a
plain table scan). -/
def catTasksSorted (tasks : List TaskRow) (cat : Option String) : List TaskRow :=
  List.insertionSort ordLe (tasks.filter (fun t => t.category = cat))

/-- Embedding of `Database._rebalance_order_values`: enumerate the rows of
`cat` ascending by current key and run
`UPDATE tasks SET order_value = (idx + 1) * 1000 WHERE id = ?` for each,
so any row whose id occurs in the enumeration is restamped with
`(rank + 1) * 1000`. -/
def rebalance_order_values (tasks : List TaskRow) (cat : Option String) : List TaskRow :=
  let sortedIds := (catTasksSorted tasks cat).map (fun t => t.id)
  tasks.map (fun t =>
    if t.id ∈ sortedIds then
      { t with order_value := ((sortedIds.indexOf t.id : Int) + 1) * 1000 }
    else t)

/-- Result of one allocation helper: the (possibly rebalanced) store, the
computed key, and how many times the rebalancer ran. -/
structure AllocResult where
  tasks : List TaskRow
  key : Int
  rebalances : Nat
deriving DecidableEq, Repr

/-- Embedding of `Database._get_next_order_value`.  The refetch of the
`after` row after a rebalance uses the row found in the rebalanced store;
the `.getD after_order` default is unreachable because rebalancing never
removes a row (the Python code reads the fetched row unconditionally). -/
def get_next_order_value (tasks : List TaskRow) (after_task_id : Option Nat)
    (cat : Option String) : AllocResult :=
  match after_task_id with
  | none => ⟨tasks, appendKey tasks cat, 0⟩
  | some aid =>
    match findTask tasks aid with
    | none => ⟨tasks, appendKey tasks cat, 0⟩
    | some arow =>
      if arow.category ≠ cat then ⟨tasks, appendKey tasks cat, 0⟩
      else
        let after_order := arow.order_value
        match nextKeyAbove (catKeys tasks cat) after_order with
        | none => ⟨tasks, after_order + 1000, 0⟩
        | some next_order =>
          if next_order - after_order > 1 then
            ⟨tasks, (after_order + next_order) / 2, 0⟩
          else
            let t2 := rebalance_order_values tasks cat
            let after2 := ((findTask t2 aid).map (fun r => r.order_value)).getD after_order
            match nextKeyAbove (catKeys t2 cat) after2 with
            | none => ⟨t2, after2 + 1000, 1⟩
            | some n2 => ⟨t2, (after2 + n2) / 2, 1⟩

/-- Embedding of `Database._get_order_value_before`.  Note that this path
never reads the category of the referenced row: only its `order_value` is
selected.  As in `get_next_order_value`, the `.getD before_order` default
of the post-rebalance refetch is unreachable. -/
def get_order_value_before (tasks : List TaskRow) (before_task_id : Nat)
    (cat : Option String) : AllocResult :=
  match findTask tasks before_task_id with
  | none => ⟨tasks, appendKey tasks cat, 0⟩
  | some brow =>
    let before_order := brow.order_value
    match prevKeyBelow (catKeys tasks cat) before_order with
    | none =>
      let new_order := before_order - 1000
      if new_order ≤ 0 then
        ⟨tasks, if before_order > 1 then before_order / 2 else 1, 0⟩
      else ⟨tasks, new_order, 0⟩
    | some prev_order =>
      if before_order - prev_order > 1 then
        ⟨tasks, (prev_order + before_order) / 2, 0⟩
      else
        let t2 := rebalance_order_values tasks cat
        let before2 := ((findTask t2 before_task_id).map (fun r => r.order_value)).getD before_order
        match prevKeyBelow (catKeys t2 cat) before2 with
        | none => ⟨t2, if before2 > 1000 then before2 - 1000 else before2 / 2, 1⟩
        | some p2 => ⟨t2, (p2 + before2) / 2, 1⟩

/-- Result of a task creation: the new store (the fresh row appended, as
SQLite INSERT appends in rowid order), the created row, and the number of
rebalances that ran. -/
structure CreateResult where
  tasks : List TaskRow
  created : TaskRow
  rebalances : Nat
deriving DecidableEq, Repr

/-- Embedding of `Database.create_task_at_position`: `before_task_id`
takes precedence when present, otherwise the after path runs (also when
both ids are absent).  `new_id` stands for the rowid SQLite assigns. -/
def create_task_at_position (tasks : List TaskRow) (new_id : Nat) (title : String)
    (cat : Option String) (after_task_id before_task_id : Option Nat) : CreateResult :=
  let r :=
    match before_task_id with
    | some bid => get_order_value_before tasks bid cat
    | none => get_next_order_value tasks after_task_id cat
  let row : TaskRow := ⟨new_id, title, "", .pending, cat, r.key⟩
  ⟨r.tasks ++ [row], row, r.rebalances⟩

/-- Embedding of `Database.create_task`: the key is the maximum
`order_value` across the whole table (not scoped to the category),
coalesced to 0 when the table is empty, plus 1000. -/
def create_task (tasks : List TaskRow) (new_id : Nat) (title : String)
    (cat : Option String) : List TaskRow × TaskRow :=
  let max_order := (maxKey? (tasks.map (fun t => t.order_value))).getD 0
  let row : TaskRow := ⟨new_id, title, "", .pending, cat, max_order + 1000⟩
  (tasks ++ [row], row)

/-- First-pass key computation of `get_order_value_before` for a found
row, as a function of the row key and the target category keys alone;
`none` when the gap is exhausted and the rebalancer must run. -/
def beforeKeyCore (before_order : Int) (keys : List Int) : Option Int :=
  match prevKeyBelow keys before_order with
  | none =>
    let new_order := before_order - 1000
    some (if new_order ≤ 0 then (if before_order > 1 then before_order / 2 else 1) else new_order)
  | some prev_order =>
    if before_order - prev_order > 1 then some ((prev_order + before_order) / 2) else none

/-- The store obtained by repeatedly prepending with
`create_task_at_position`: step `n + 1` creates task `n + 1` in the NULL
category, placed before task `n` (the first step has no neighbor). -/
def prependChain : Nat → List TaskRow
  | 0 => []
  | n + 1 =>
    (create_task_at_position (prependChain n) (n + 1) "t" none none
      (if n = 0 then none else some n)).tasks

/-! ### Helper lemmas about the SQL embeddings -/

theorem maxKey?_eq_none {l : List Int} (h : maxKey? l = none) : l = [] := by
  cases l with
  | nil => rfl
  | cons x xs =>
    rw [maxKey?] at h
    cases hx : maxKey? xs <;> rw [hx] at h <;> simp at h

theorem maxKey?_mem {l : List Int} {m : Int} (h : maxKey? l = some m) : m ∈ l := by
  induction l generalizing m with
  | nil => simp [maxKey?] at h
  | cons x xs ih =>
    rw [maxKey?] at h
    cases hx : maxKey? xs with
    | none =>
      rw [hx] at h
      injection h with h
      exact h ▸ List.mem_cons_self x xs
    | some m2 =>
      rw [hx] at h
      injection h with h
      rcases max_choice x m2 with hc | hc
      · exact List.mem_cons.2 (Or.inl (by omega))
      · exact List.mem_cons.2 (Or.inr (ih (by rw [hx]; congr 1; omega)))

theorem le_maxKey? {l : List Int} {x m : Int} (hx : x ∈ l) (h : maxKey? l = some m) : x ≤ m := by
  induction l generalizing m with
  | nil => cases hx
  | cons y ys ih =>
    rw [maxKey?] at h
    cases hy : maxKey? ys with
    | none =>
      rw [hy] at h
      injection h with h
      have : ys = [] := maxKey?_eq_none hy
      subst this
      rcases List.mem_cons.1 hx with hc | hc
      · omega
      · cases hc
    | some m2 =>
      rw [hy] at h
      injection h with h
      rcases List.mem_cons.1 hx with hc | hc
      · subst hc; omega
      · have := ih hc hy; omega

theorem le_maxKeyD {l : List Int} {x : Int} (hx : x ∈ l) : x ≤ (maxKey? l).getD 0 := by
  cases h : maxKey? l with
  | none => rw [maxKey?_eq_none h] at hx; cases hx
  | some m => simpa using le_maxKey? hx h

theorem minKey?_eq_none {l : List Int} (h : minKey? l = none) : l = [] := by
  cases l with
  | nil => rfl
  | cons x xs =>
    rw [minKey?] at h
    cases hx : minKey? xs <;> rw [hx] at h <;> simp at h

theorem minKey?_mem {l : List Int} {m : Int} (h : minKey? l = some m) : m ∈ l := by
  induction l generalizing m with
  | nil => simp [minKey?] at h
  | cons x xs ih =>
    rw [minKey?] at h
    cases hx : minKey? xs with
    | none =>
      rw [hx] at h
      injection h with h
      exact h ▸ List.mem_cons_self x xs
    | some m2 =>
      rw [hx] at h
      injection h with h
      rcases min_choice x m2 with hc | hc
      · exact List.mem_cons.2 (Or.inl (by omega))
      · exact List.mem_cons.2 (Or.inr (ih (by rw [hx]; congr 1; omega)))

theorem minKey?_le {l : List Int} {x m : Int} (hx : x ∈ l) (h : minKey? l = some m) : m ≤ x := by
  induction l generalizing m with
  | nil => cases hx
  | cons y ys ih =>
    rw [minKey?] at h
    cases hy : minKey? ys with
    | none =>
      rw [hy] at h
      injection h with h
      have : ys = [] := minKey?_eq_none hy
      subst this
      rcases List.mem_cons.1 hx with hc | hc
      · omega
      · cases hc
    | some m2 =>
      rw [hy] at h
      injection h with h
      rcases List.mem_cons.1 hx with hc | hc
      · subst hc; omega
      · have := ih hc hy; omega

theorem prevKeyBelow_some {keys : List Int} {b p : Int} (h : prevKeyBelow keys b = some p) :
    p ∈ keys ∧ p < b ∧ ∀ k ∈ keys, k < b → k ≤ p := by
  have hm := maxKey?_mem h
  rw [List.mem_filter] at hm
  refine ⟨hm.1, by simpa using hm.2, fun k hk hkb => ?_⟩
  exact le_maxKey? (List.mem_filter.2 ⟨hk, by simpa using hkb⟩) h

theorem prevKeyBelow_none {keys : List Int} {b : Int} (h : prevKeyBelow keys b = none) :
    ∀ k ∈ keys, ¬ k < b := by
  intro k hk hkb
  have hnil : keys.filter (fun k => k < b) = [] := maxKey?_eq_none h
  have : k ∈ keys.filter (fun k => k < b) := List.mem_filter.2 ⟨hk, by simpa using hkb⟩
  rw [hnil] at this
  cases this

theorem nextKeyAbove_some {keys : List Int} {a n : Int} (h : nextKeyAbove keys a = some n) :
    n ∈ keys ∧ a < n ∧ ∀ k ∈ keys, a < k → n ≤ k := by
  have hm := minKey?_mem h
  rw [List.mem_filter] at hm
  refine ⟨hm.1, by simpa using hm.2, fun k hk hka => ?_⟩
  exact minKey?_le (List.mem_filter.2 ⟨hk, by simpa using hka⟩) h

theorem findTask_eq_none {tasks : List TaskRow} {tid : Nat} :
    findTask tasks tid = none ↔ ∀ t ∈ tasks, t.id ≠ tid := by
  unfold findTask
  rw [List.find?_eq_none]
  simp

theorem findTask_mem {tasks : List TaskRow} {tid : Nat} {t : TaskRow}
    (h : findTask tasks tid = some t) : t ∈ tasks ∧ t.id = tid := by
  refine ⟨List.mem_of_find?_eq_some h, ?_⟩
  have := List.find?_some h
  simpa using this

theorem findTask_eq_of_mem {tasks : List TaskRow} {t : TaskRow}
    (hids : (tasks.map (fun u => u.id)).Nodup) (ht : t ∈ tasks) :
    findTask tasks t.id = some t := by
  induction tasks with
  | nil => cases ht
  | cons u us ih =>
    rw [List.map_cons, List.nodup_cons] at hids
    rcases List.mem_cons.1 ht with h | h
    · subst h
      exact List.find?_cons_of_pos us (by simp)
    · have hne : ¬ (u.id = t.id) := fun he => hids.1 (he ▸ List.mem_map_of_mem _ h)
      unfold findTask at ih ⊢
      rw [List.find?_cons_of_neg us (by simpa using hne)]
      exact ih hids.2 h

/-! ### Claim theorems: creation paths -/

/-- C1: the uniqueness invariant fails on the code.  Eleven calls of
`create_task_at_position`, each placing the new task before the previous
one in the NULL category, drive the minimum key down to 1 and the eleventh
call assigns key 1 a second time: tasks 10 and 11 share `order_value` 1 in
the same category, so the keys of a reachable state are not pairwise
distinct and the ascending display order cannot be strict. -/
theorem c1_duplicate_order_values :
    (findTask (prependChain 11) 10).map (fun t => t.order_value) = some 1 ∧
    (findTask (prependChain 11) 11).map (fun t => t.order_value) = some 1 ∧
    catKeys (prependChain 11) none = [1000, 500, 250, 125, 62, 31, 15, 7, 3, 1, 1] ∧
    ¬ (catKeys (prependChain 11) none).Nodup := by
  exact ⟨by decide, by decide, by decide, by decide⟩

/-- C2: when the task referred to by `before_task_id` exists in the target
category with key `B` and the greatest key `P` of that category strictly
below `B` satisfies `B - P > 1`, `create_task_at_position` inserts a new
row keyed with the floor midpoint `(P + B) / 2`, strictly between `P` and
`B`, leaves the store otherwise unchanged and runs no rebalance. -/
theorem c2_before_midpoint (tasks : List TaskRow) (bid new_id : Nat) (title : String)
    (cat : Option String) (brow : TaskRow) (p : Int)
    (hfind : findTask tasks bid = some brow)
    (hcat : brow.category = cat)
    (hprev : prevKeyBelow (catKeys tasks cat) brow.order_value = some p)
    (hgap : brow.order_value - p > 1) :
    create_task_at_position tasks new_id title cat none (some bid) =
      ⟨tasks ++ [⟨new_id, title, "", .pending, cat, (p + brow.order_value) / 2⟩],
       ⟨new_id, title, "", .pending, cat, (p + brow.order_value) / 2⟩, 0⟩ ∧
    p < (p + brow.order_value) / 2 ∧ (p + brow.order_value) / 2 < brow.order_value := by
  refine ⟨?_, by omega, by omega⟩
  simp only [create_task_at_position, get_order_value_before, hfind, hprev, if_pos hgap]

/-- Witness for C2 at a concrete store. -/
theorem c2_before_midpoint_witness :
    create_task_at_position
        [⟨1, "a", "", .pending, none, 1000⟩, ⟨2, "b", "", .pending, none, 2000⟩]
        3 "c" none none (some 2) =
      ⟨[⟨1, "a", "", .pending, none, 1000⟩, ⟨2, "b", "", .pending, none, 2000⟩,
        ⟨3, "c", "", .pending, none, (1000 + 2000) / 2⟩],
       ⟨3, "c", "", .pending, none, (1000 + 2000) / 2⟩, 0⟩ ∧
    (1000 : Int) < (1000 + 2000) / 2 ∧ ((1000 : Int) + 2000) / 2 < 2000 := by
  have h := c2_before_midpoint
    [⟨1, "a", "", .pending, none, 1000⟩, ⟨2, "b", "", .pending, none, 2000⟩]
    2 3 "c" none ⟨2, "b", "", .pending, none, 2000⟩ 1000
    (by decide) (by decide) (by decide) (by decide)
  exact h

/-- C5: a stale `after_task_id` or `before_task_id` (no row carries that
id) makes `create_task_at_position` behave exactly as if the argument had
been absent: the new key is the category maximum (0 for an empty
category) plus 1000, no rebalance runs and no error arises (the embedded
operation is total). -/
theorem c5_stale_reference_fallback (tasks : List TaskRow) (new_id sid : Nat) (title : String)
    (cat : Option String) (hstale : ∀ t ∈ tasks, t.id ≠ sid) :
    create_task_at_position tasks new_id title cat (some sid) none =
      create_task_at_position tasks new_id title cat none none ∧
    create_task_at_position tasks new_id title cat none (some sid) =
      create_task_at_position tasks new_id title cat none none ∧
    (create_task_at_position tasks new_id title cat none none).created.order_value =
      (maxKey? (catKeys tasks cat)).getD 0 + 1000 ∧
    (create_task_at_position tasks new_id title cat none none).rebalances = 0 := by
  have hnone : findTask tasks sid = none := findTask_eq_none.2 hstale
  refine ⟨?_, ?_, rfl, rfl⟩
  · simp only [create_task_at_position, get_next_order_value, hnone]
  · simp only [create_task_at_position, get_order_value_before, get_next_order_value, hnone]

/-- Witness for C5 at a concrete store. -/
theorem c5_stale_reference_fallback_witness :
    create_task_at_position [⟨1, "a", "", .pending, none, 1000⟩] 7 "n" none (some 42) none =
      create_task_at_position [⟨1, "a", "", .pending, none, 1000⟩] 7 "n" none none none ∧
    create_task_at_position [⟨1, "a", "", .pending, none, 1000⟩] 7 "n" none none (some 42) =
      create_task_at_position [⟨1, "a", "", .pending, none, 1000⟩] 7 "n" none none none ∧
    (create_task_at_position [⟨1, "a", "", .pending, none, 1000⟩] 7 "n" none
        none none).created.order_value =
      (maxKey? (catKeys [⟨1, "a", "", .pending, none, 1000⟩] none)).getD 0 + 1000 ∧
    (create_task_at_position [⟨1, "a", "", .pending, none, 1000⟩] 7 "n" none
        none none).rebalances = 0 :=
  c5_stale_reference_fallback [⟨1, "a", "", .pending, none, 1000⟩] 7 42 "n" none (by decide)

/-- C6: when the task referred to by `after_task_id` exists but belongs to
a category different from the target one, `create_task_at_position`
ignores the neighbor relation and appends at the end of the target
category: the new key is the target category maximum (0 when empty) plus
1000 and no rebalance runs. -/
theorem c6_cross_category_append (tasks : List TaskRow) (aid new_id : Nat) (title : String)
    (cat : Option String) (arow : TaskRow)
    (hfind : findTask tasks aid = some arow) (hcat : arow.category ≠ cat) :
    create_task_at_position tasks new_id title cat (some aid) none =
      ⟨tasks ++ [⟨new_id, title, "", .pending, cat,
          (maxKey? (catKeys tasks cat)).getD 0 + 1000⟩],
       ⟨new_id, title, "", .pending, cat, (maxKey? (catKeys tasks cat)).getD 0 + 1000⟩,
       0⟩ := by
  simp only [create_task_at_position, get_next_order_value, hfind, if_pos hcat, appendKey]

/-- Witness for C6 at a concrete store. -/
theorem c6_cross_category_append_witness :
    create_task_at_position
        [⟨1, "a", "", .pending, some "work", 5000⟩, ⟨2, "b", "", .pending, none, 1000⟩]
        3 "c" none (some 1) none =
      ⟨[⟨1, "a", "", .pending, some "work", 5000⟩, ⟨2, "b", "", .pending, none, 1000⟩,
        ⟨3, "c", "", .pending, none,
          (maxKey? (catKeys [⟨1, "a", "", .pending, some "work", 5000⟩,
            ⟨2, "b", "", .pending, none, 1000⟩] none)).getD 0 + 1000⟩],
       ⟨3, "c", "", .pending, none,
         (maxKey? (catKeys [⟨1, "a", "", .pending, some "work", 5000⟩,
           ⟨2, "b", "", .pending, none, 1000⟩] none)).getD 0 + 1000⟩, 0⟩ :=
  c6_cross_category_append
    [⟨1, "a", "", .pending, some "work", 5000⟩, ⟨2, "b", "", .pending, none, 1000⟩]
    1 3 "c" none ⟨1, "a", "", .pending, some "work", 5000⟩ (by decide) (by decide)

/-- C10: `create_task` appends a row whose key is the maximum
`order_value` of the whole table (not of the category), coalesced to 0,
plus 1000; that key strictly exceeds every existing key in every category,
so the new task sorts last within its own category. -/
theorem c10_create_task_global_max (tasks : List TaskRow) (new_id : Nat) (title : String)
    (cat : Option String) :
    (create_task tasks new_id title cat).1 =
      tasks ++ [(create_task tasks new_id title cat).2] ∧
    (create_task tasks new_id title cat).2.order_value =
      (maxKey? (tasks.map (fun t => t.order_value))).getD 0 + 1000 ∧
    ∀ u ∈ tasks, u.order_value < (create_task tasks new_id title cat).2.order_value := by
  refine ⟨rfl, rfl, fun u hu => ?_⟩
  have h1 : u.order_value ≤ (maxKey? (tasks.map (fun t => t.order_value))).getD 0 :=
    le_maxKeyD (List.mem_map_of_mem (fun t => t.order_value) hu)
  show u.order_value < (maxKey? (tasks.map (fun t => t.order_value))).getD 0 + 1000
  omega

/-- Witness for C10 at a concrete store with two categories. -/
theorem c10_create_task_global_max_witness :
    (create_task [⟨1, "a", "", .pending, some "w", 9000⟩, ⟨2, "b", "", .pending, none, 1000⟩]
        3 "c" none).1 =
      [⟨1, "a", "", .pending, some "w", 9000⟩, ⟨2, "b", "", .pending, none, 1000⟩] ++
        [(create_task [⟨1, "a", "", .pending, some "w", 9000⟩,
            ⟨2, "b", "", .pending, none, 1000⟩] 3 "c" none).2] ∧
    (create_task [⟨1, "a", "", .pending, some "w", 9000⟩, ⟨2, "b", "", .pending, none, 1000⟩]
        3 "c" none).2.order_value =
      (maxKey? (([⟨1, "a", "", .pending, some "w", 9000⟩,
          ⟨2, "b", "", .pending, none, 1000⟩] : List TaskRow).map
            (fun t => t.order_value))).getD 0 + 1000 ∧
    ∀ u ∈ ([⟨1, "a", "", .pending, some "w", 9000⟩,
        ⟨2, "b", "", .pending, none, 1000⟩] : List TaskRow),
      u.order_value <
        (create_task [⟨1, "a", "", .pending, some "w", 9000⟩,
            ⟨2, "b", "", .pending, none, 1000⟩] 3 "c" none).2.order_value :=
  c10_create_task_global_max
    [⟨1, "a", "", .pending, some "w", 9000⟩, ⟨2, "b", "", .pending, none, 1000⟩] 3 "c" none

/-- C9, counterexample to the claim as stated.  Two stores in which the
referenced before-task has the same `order_value` (1001) and the target
NULL category has the same key set ([1000, 1001]), yet the allocated keys
differ (1500 versus 1000): after the rebalance the refetched key of the
before-task depends on whether that task itself belongs to the target
category, so the allocated key is not a function of the pair
(order_value of the before task, key set of the target category). -/
theorem c9_not_determined_by_key_set :
    (findTask [⟨2, "t", "", .pending, none, 1000⟩, ⟨3, "u", "", .pending, none, 1001⟩] 3).map
        (fun t => t.order_value) = some 1001 ∧
    (findTask [⟨1, "v", "", .pending, some "a", 1001⟩, ⟨2, "t", "", .pending, none, 1000⟩,
        ⟨3, "u", "", .pending, none, 1001⟩] 1).map (fun t => t.order_value) = some 1001 ∧
    catKeys [⟨2, "t", "", .pending, none, 1000⟩, ⟨3, "u", "", .pending, none, 1001⟩] none =
      catKeys [⟨1, "v", "", .pending, some "a", 1001⟩, ⟨2, "t", "", .pending, none, 1000⟩,
        ⟨3, "u", "", .pending, none, 1001⟩] none ∧
    (get_order_value_before
        [⟨2, "t", "", .pending, none, 1000⟩, ⟨3, "u", "", .pending, none, 1001⟩]
        3 none).key = 1500 ∧
    (get_order_value_before
        [⟨1, "v", "", .pending, some "a", 1001⟩, ⟨2, "t", "", .pending, none, 1000⟩,
          ⟨3, "u", "", .pending, none, 1001⟩]
        1 none).key = 1000 := by
  exact ⟨by decide, by decide, by decide, by decide, by decide⟩

/-- C9, amended: the before-insertion path never reads the category of
the referenced task and never takes the stale-reference append fallback
for an existing task; whenever its first pass completes without a
rebalance, the allocated key is `beforeKeyCore` of the task key and the
target category key set — a function that does not mention the category of
the referenced task.  (When a rebalance is triggered the key additionally
depends on whether the referenced task itself is restamped, as the
counterexample shows.) -/
theorem c9_before_ignores_category (tasks : List TaskRow) (bid : Nat) (cat : Option String)
    (brow : TaskRow) (k : Int)
    (hfind : findTask tasks bid = some brow)
    (hcore : beforeKeyCore brow.order_value (catKeys tasks cat) = some k) :
    get_order_value_before tasks bid cat = ⟨tasks, k, 0⟩ := by
  unfold beforeKeyCore at hcore
  cases hp : prevKeyBelow (catKeys tasks cat) brow.order_value with
  | none =>
    simp only [hp, Option.some.injEq] at hcore
    simp only [get_order_value_before, hfind, hp]
    by_cases hz : brow.order_value - 1000 ≤ 0
    · rw [if_pos hz, ← hcore, if_pos hz]
    · rw [if_neg hz, ← hcore, if_neg hz]
  | some p =>
    simp only [hp] at hcore
    by_cases hg : brow.order_value - p > 1
    · rw [if_pos hg] at hcore
      simp only [Option.some.injEq] at hcore
      simp only [get_order_value_before, hfind, hp, if_pos hg, hcore]
    · rw [if_neg hg] at hcore
      cases hcore

/-- Witness for the amended C9, with a before-task whose category ("a")
differs from the target category (NULL): no fallback happens and the key
is the category-blind first-pass result. -/
theorem c9_before_ignores_category_witness :
    get_order_value_before
        [⟨1, "v", "", .pending, some "a", 1600⟩, ⟨2, "t", "", .pending, none, 1000⟩,
          ⟨3, "u", "", .pending, none, 2000⟩] 1 none =
      ⟨[⟨1, "v", "", .pending, some "a", 1600⟩, ⟨2, "t", "", .pending, none, 1000⟩,
          ⟨3, "u", "", .pending, none, 2000⟩], 1300, 0⟩ :=
  c9_before_ignores_category
    [⟨1, "v", "", .pending, some "a", 1600⟩, ⟨2, "t", "", .pending, none, 1000⟩,
      ⟨3, "u", "", .pending, none, 2000⟩]
    1 none ⟨1, "v", "", .pending, some "a", 1600⟩ 1300 (by decide) (by decide)

/-! ### The command line surface (`cli.py`) -/

/-- A parsed invocation of one of the three CLI subcommands, before the
argument validation declared in `create_parser` runs: `task_id` is `none`
when `--id` was not supplied, and the two `mark` flags record whether
`--complete` and `--incomplete` were given. -/
inductive Invocation where
  | ls (json_output : Bool)
  | edit (task_id : Option Nat) (name description category : Option String)
  | mark (task_id : Option Nat) (complete incomplete : Bool)
deriving DecidableEq, Repr

/-- Argument validity per `create_parser`: `edit` and `mark` require
`--id`, and the mutually exclusive required group of `mark` demands
exactly one of `--complete` / `--incomplete`. -/
def parseOk : Invocation → Bool
  | .ls _ => true
  | .edit tid _ _ _ => tid.isSome
  | .mark tid c i => tid.isSome && (c != i)

/-- Outcome of one CLI process run. -/
inductive CliResult where
  /-- A handler returned this exit code and the process exits with it. -/
  | code (n : Nat)
  /-- argparse rejected the arguments: it raises `SystemExit(2)`. -/
  | argError
  /-- An uncaught Python exception: the interpreter prints a traceback
  and terminates with status 1. -/
  | exception
deriving DecidableEq, Repr

/-- The process exit status of each outcome. -/
def exitStatus : CliResult → Nat
  | .code n => n
  | .argError => 2
  | .exception => 1

/-- The world a CLI run sees: whether `tasks.db` exists in the current
directory, and the rows of its `tasks` table. -/
structure CliWorld where
  dbExists : Bool
  tasks : List TaskRow
deriving DecidableEq, Repr

/-- Embedding of `cmd_ls`: fails with code 1 when no database is present,
otherwise prints the tasks and returns 0. -/
def cmd_ls (w : CliWorld) : CliResult :=
  if w.dbExists then .code 0 else .code 1

/-- Embedding of `cmd_edit`: database check, then the at-least-one-field
check, then the task lookup.  The final step calls `db.update_task(...)`,
but class `Database` defines no method of that name, so Python raises
`AttributeError` before any row is written. -/
def cmd_edit (w : CliWorld) (tid : Nat) (name description category : Option String) : CliResult :=
  if ¬ w.dbExists then .code 1
  else if name = none ∧ description = none ∧ category = none then .code 1
  else
    match findTask w.tasks tid with
    | none => .code 1
    | some _ => .exception

/-- Embedding of `cmd_mark`: database check, task lookup, then
`update_task_status` and exit code 0. -/
def cmd_mark (w : CliWorld) (tid : Nat) : CliResult :=
  if ¬ w.dbExists then .code 1
  else
    match findTask w.tasks tid with
    | none => .code 1
    | some _ => .code 0

/-- Modelled from the spec: the console entry point that turns `run_cli`
into a process exit is absent from the sources (only `run_cli` itself is
present); per the spec the CLI "exits with status 0 on success, 1 on any
error", i.e. the process exits with the return code of the dispatched
handler.  Interpreter-level behavior is modelled faithfully: an argparse
rejection raises `SystemExit(2)` inside `parse_args`, and an uncaught
exception in a handler terminates the interpreter with status 1. -/
def runCli (w : CliWorld) (inv : Invocation) : CliResult :=
  if ¬ parseOk inv then .argError
  else
    match inv with
    | .ls _ => cmd_ls w
    | .edit tid name description category =>
      match tid with
      | some t => cmd_edit w t name description category
      | none => .argError
    | .mark tid _ _ =>
      match tid with
      | some t => cmd_mark w t
      | none => .argError

/-- C8, counterexample to the claim as stated: `mark --id 1` without
`--complete` or `--incomplete` is an invalid argument combination, but the
process exits with status 2 (the argparse convention), not 1. -/
theorem c8_invalid_args_exit_two :
    exitStatus (runCli ⟨true, [⟨1, "a", "", .pending, none, 1000⟩]⟩
      (.mark (some 1) false false)) = 2 ∧ (2 : Nat) ≠ 1 := by
  exact ⟨by decide, by decide⟩

/-- C8, amended: argument combinations rejected by the parser exit with
status 2; with arguments accepted by the parser, a missing database makes
every command exit 1; a successful `ls` exits 0; `mark` exits 0 when the
task exists and 1 otherwise; `edit` exits 1 when no field option is given
or the task is not found, and an `edit` that passes all checks dies on an
uncaught `AttributeError` (`Database` has no `update_task`), so the
process exits 1 without updating anything and never reaches a success
exit. -/
theorem c8_cli_exit_codes (w : CliWorld) (inv : Invocation) :
    (parseOk inv = false → exitStatus (runCli w inv) = 2) ∧
    (parseOk inv = true → w.dbExists = false → exitStatus (runCli w inv) = 1) ∧
    (∀ j, inv = .ls j → w.dbExists = true → exitStatus (runCli w inv) = 0) ∧
    (∀ tid c i, inv = .mark (some tid) c i → c ≠ i → w.dbExists = true →
      exitStatus (runCli w inv) = if (findTask w.tasks tid).isSome then 0 else 1) ∧
    (∀ tid name description category, inv = .edit (some tid) name description category →
      w.dbExists = true →
      ((name = none ∧ description = none ∧ category = none) →
        exitStatus (runCli w inv) = 1) ∧
      (findTask w.tasks tid = none → exitStatus (runCli w inv) = 1) ∧
      (¬ (name = none ∧ description = none ∧ category = none) →
        ∀ t, findTask w.tasks tid = some t →
        runCli w inv = .exception ∧ exitStatus (runCli w inv) = 1)) := by
  refine ⟨?_, ?_, ?_, ?_, ?_⟩
  · intro hbad
    simp [runCli, hbad, exitStatus]
  · intro hok hdb
    unfold runCli
    rw [hok]
    cases inv with
    | ls j => simp [cmd_ls, hdb, exitStatus]
    | edit tid name description category =>
      cases tid with
      | none => simp [parseOk] at hok
      | some t => simp [cmd_edit, hdb, exitStatus]
    | mark tid c i =>
      cases tid with
      | none => simp [parseOk] at hok
      | some t => simp [cmd_mark, hdb, exitStatus]
  · intro j hinv hdb
    subst hinv
    simp [runCli, parseOk, cmd_ls, hdb, exitStatus]
  · intro tid c i hinv hci hdb
    subst hinv
    have hok : parseOk (.mark (some tid) c i) = true := by
      simp [parseOk]
      cases c <;> cases i <;> simp_all
    simp only [runCli, hok]
    cases hf : findTask w.tasks tid with
    | none => simp [cmd_mark, hdb, hf, exitStatus]
    | some t => simp [cmd_mark, hdb, hf, exitStatus]
  · intro tid name description category hinv hdb
    subst hinv
    refine ⟨?_, ?_, ?_⟩
    · intro hempty
      simp [runCli, parseOk, cmd_edit, hdb, hempty, exitStatus]
    · intro hf
      by_cases hempty : name = none ∧ description = none ∧ category = none
      · simp [runCli, parseOk, cmd_edit, hdb, hempty, exitStatus]
      · simp [runCli, parseOk, cmd_edit, hdb, hempty, hf, exitStatus]
    · intro hempty t hf
      constructor
      · simp [runCli, parseOk, cmd_edit, hdb, hempty, hf]
      · simp [runCli, parseOk, cmd_edit, hdb, hempty, hf, exitStatus]

/-- Witness for the amended C8 on a concrete world and invocation. -/
theorem c8_cli_exit_codes_witness :
    (parseOk (Invocation.edit (some 1) (some "x") none none) = false →
      exitStatus (runCli ⟨true, [⟨1, "a", "", .pending, none, 1000⟩]⟩
        (.edit (some 1) (some "x") none none)) = 2) ∧
    (parseOk (Invocation.edit (some 1) (some "x") none none) = true →
      (⟨true, [⟨1, "a", "", .pending, none, 1000⟩]⟩ : CliWorld).dbExists = false →
      exitStatus (runCli ⟨true, [⟨1, "a", "", .pending, none, 1000⟩]⟩
        (.edit (some 1) (some "x") none none)) = 1) ∧
    (∀ j, Invocation.edit (some 1) (some "x") none none = .ls j →
      (⟨true, [⟨1, "a", "", .pending, none, 1000⟩]⟩ : CliWorld).dbExists = true →
      exitStatus (runCli ⟨true, [⟨1, "a", "", .pending, none, 1000⟩]⟩
        (.edit (some 1) (some "x") none none)) = 0) ∧
    (∀ tid c i, Invocation.edit (some 1) (some "x") none none = .mark (some tid) c i →
      c ≠ i → (⟨true, [⟨1, "a", "", .pending, none, 1000⟩]⟩ : CliWorld).dbExists = true →
      exitStatus (runCli ⟨true, [⟨1, "a", "", .pending, none, 1000⟩]⟩
          (.edit (some 1) (some "x") none none)) =
        if (findTask [⟨1, "a", "", .pending, none, 1000⟩] tid).isSome then 0 else 1) ∧
    (∀ tid name description category,
      Invocation.edit (some 1) (some "x") none none = .edit (some tid) name description category →
      (⟨true, [⟨1, "a", "", .pending, none, 1000⟩]⟩ : CliWorld).dbExists = true →
      ((name = none ∧ description = none ∧ category = none) →
        exitStatus (runCli ⟨true, [⟨1, "a", "", .pending, none, 1000⟩]⟩
          (.edit (some 1) (some "x") none none)) = 1) ∧
      (findTask [⟨1, "a", "", .pending, none, 1000⟩] tid = none →
        exitStatus (runCli ⟨true, [⟨1, "a", "", .pending, none, 1000⟩]⟩
          (.edit (some 1) (some "x") none none)) = 1) ∧
      (¬ (name = none ∧ description = none ∧ category = none) →
        ∀ t, findTask [⟨1, "a", "", .pending, none, 1000⟩] tid = some t →
        runCli ⟨true, [⟨1, "a", "", .pending, none, 1000⟩]⟩
            (.edit (some 1) (some "x") none none) = .exception ∧
        exitStatus (runCli ⟨true, [⟨1, "a", "", .pending, none, 1000⟩]⟩
          (.edit (some 1) (some "x") none none)) = 1)) :=
  c8_cli_exit_codes ⟨true, [⟨1, "a", "", .pending, none, 1000⟩]⟩
    (.edit (some 1) (some "x") none none)

/-! ### Machinery for the rebalancer: sorted lists and restamping -/

/-- The restamping applied by the rebalancer to each row, as a named
function (definitionally the lambda inside `rebalance_order_values`). -/
def restampFun (tasks : List TaskRow) (cat : Option String) : TaskRow → TaskRow :=
  fun t =>
    if t.id ∈ (catTasksSorted tasks cat).map (fun u => u.id) then
      { t with order_value :=
          ((((catTasksSorted tasks cat).map (fun u => u.id)).indexOf t.id : Int) + 1) * 1000 }
    else t

theorem rebalance_eq (tasks : List TaskRow) (cat : Option String) :
    rebalance_order_values tasks cat = tasks.map (restampFun tasks cat) := rfl

theorem restampFun_id (tasks : List TaskRow) (cat : Option String) (t : TaskRow) :
    (restampFun tasks cat t).id = t.id := by
  unfold restampFun
  split <;> rfl

theorem restampFun_category (tasks : List TaskRow) (cat : Option String) (t : TaskRow) :
    (restampFun tasks cat t).category = t.category := by
  unfold restampFun
  split <;> rfl

/-- Filtering by category commutes with a map that preserves categories. -/
theorem filter_cat_map (tasks : List TaskRow) (c : Option String) (f : TaskRow → TaskRow)
    (hf : ∀ t, (f t).category = t.category) :
    (tasks.map f).filter (fun t => t.category = c) =
      (tasks.filter (fun t => t.category = c)).map f := by
  rw [List.filter_map]
  congr 1
  exact List.filter_congr (fun t _ => by simp [Function.comp, hf t])

/-- Membership in the sorted category selection. -/
theorem mem_catTasksSorted {tasks : List TaskRow} {cat : Option String} {u : TaskRow} :
    u ∈ catTasksSorted tasks cat ↔ u ∈ tasks ∧ u.category = cat := by
  unfold catTasksSorted
  rw [(List.perm_insertionSort ordLe (tasks.filter (fun t => t.category = cat))).mem_iff]
  simp [List.mem_filter]

/-- With globally distinct ids, the ids of the sorted category selection
are distinct. -/
theorem sortedIds_nodup (tasks : List TaskRow) (cat : Option String)
    (hids : (tasks.map (fun t => t.id)).Nodup) :
    ((catTasksSorted tasks cat).map (fun t => t.id)).Nodup := by
  have h1 : ((tasks.filter (fun t => t.category = cat)).map (fun t => t.id)).Nodup :=
    (List.Sublist.map (fun t => t.id) (List.filter_sublist tasks)).nodup hids
  exact (List.Perm.map (fun t => t.id)
    (List.perm_insertionSort ordLe (tasks.filter (fun t => t.category = cat)))).nodup_iff.mpr h1

/-- Restamping the k-th row of the sorted selection yields key
`(k + 1) * 1000`. -/
theorem restampFun_sorted_getElem (tasks : List TaskRow) (cat : Option String)
    (hids : (tasks.map (fun t => t.id)).Nodup) (k : Nat)
    (hk : k < (catTasksSorted tasks cat).length) :
    restampFun tasks cat ((catTasksSorted tasks cat)[k]) =
      { (catTasksSorted tasks cat)[k] with order_value := ((k : Int) + 1) * 1000 } := by
  have hnd := sortedIds_nodup tasks cat hids
  have hk2 : k < ((catTasksSorted tasks cat).map (fun t => t.id)).length := by
    simpa using hk
  have hgetid : ((catTasksSorted tasks cat).map (fun t => t.id))[k] =
      ((catTasksSorted tasks cat)[k]).id := by
    simp only [List.getElem_map]
  have hmem : ((catTasksSorted tasks cat)[k]).id ∈
      (catTasksSorted tasks cat).map (fun t => t.id) := by
    rw [← hgetid]
    exact List.getElem_mem hk2
  have hidx : ((catTasksSorted tasks cat).map (fun t => t.id)).indexOf
      ((catTasksSorted tasks cat)[k]).id = k := by
    rw [← hgetid]
    exact List.indexOf_getElem hnd k hk2
  unfold restampFun
  rw [if_pos hmem, hidx]

theorem mapRestamp_sorted (tasks : List TaskRow) (cat : Option String)
    (hids : (tasks.map (fun t => t.id)).Nodup) :
    List.Sorted ordLe ((catTasksSorted tasks cat).map (restampFun tasks cat)) := by
  rw [List.Sorted, List.pairwise_iff_getElem]
  intro i j hi hj hij
  have hi2 : i < (catTasksSorted tasks cat).length := by simpa using hi
  have hj2 : j < (catTasksSorted tasks cat).length := by simpa using hj
  simp only [List.getElem_map]
  rw [restampFun_sorted_getElem tasks cat hids i hi2,
    restampFun_sorted_getElem tasks cat hids j hj2]
  show ((i : Int) + 1) * 1000 ≤ ((j : Int) + 1) * 1000
  omega

theorem mapRestamp_keys_nodup (tasks : List TaskRow) (cat : Option String)
    (hids : (tasks.map (fun t => t.id)).Nodup) :
    (((catTasksSorted tasks cat).map (restampFun tasks cat)).map
      (fun t => t.order_value)).Nodup := by
  rw [List.Nodup, List.pairwise_iff_getElem]
  intro i j hi hj hij
  have hi2 : i < (catTasksSorted tasks cat).length := by simpa using hi
  have hj2 : j < (catTasksSorted tasks cat).length := by simpa using hj
  simp only [List.getElem_map]
  rw [restampFun_sorted_getElem tasks cat hids i hi2,
    restampFun_sorted_getElem tasks cat hids j hj2]
  show ((i : Int) + 1) * 1000 ≠ ((j : Int) + 1) * 1000
  omega

/-- Two sorted permutations of each other are equal when the keys of one
of them are pairwise distinct. -/
theorem eq_of_perm_sorted_nodup_keys :
    ∀ {l2 l1 : List TaskRow}, List.Perm l1 l2 →
      List.Sorted ordLe l1 → List.Sorted ordLe l2 →
      (l2.map (fun t => t.order_value)).Nodup → l1 = l2 := by
  intro l2
  induction l2 with
  | nil => intro l1 hp _ _ _; exact hp.eq_nil
  | cons b l2 ih =>
    intro l1 hp hs1 hs2 hnd
    cases l1 with
    | nil =>
      have := hp.length_eq
      simp at this
    | cons a l1 =>
      have hab : a = b := by
        by_contra hne
        have ha2 : a ∈ b :: l2 := hp.mem_iff.mp (List.mem_cons_self a l1)
        have ha2m : a ∈ l2 := (List.mem_cons.mp ha2).resolve_left hne
        have hb1 : b ∈ a :: l1 := hp.mem_iff.mpr (List.mem_cons_self b l2)
        have hb1m : b ∈ l1 := (List.mem_cons.mp hb1).resolve_left (fun h => hne h.symm)
        have h1 : ordLe a b := (List.sorted_cons.mp hs1).1 b hb1m
        have h2 : ordLe b a := (List.sorted_cons.mp hs2).1 a ha2m
        have heq : b.order_value = a.order_value := le_antisymm h2 h1
        rw [List.map_cons, List.nodup_cons] at hnd
        exact hnd.1 (heq ▸ List.mem_map_of_mem (fun t => t.order_value) ha2m)
      subst hab
      rw [List.map_cons, List.nodup_cons] at hnd
      rw [ih hp.cons_inv (List.sorted_cons.mp hs1).2 (List.sorted_cons.mp hs2).2 hnd.2]

/-- Rebalancing and then reading the category sorted equals restamping the
previously sorted selection in place. -/
theorem catTasksSorted_rebalance (tasks : List TaskRow) (cat : Option String)
    (hids : (tasks.map (fun t => t.id)).Nodup) :
    catTasksSorted (rebalance_order_values tasks cat) cat =
      (catTasksSorted tasks cat).map (restampFun tasks cat) := by
  apply eq_of_perm_sorted_nodup_keys _ _ (mapRestamp_sorted tasks cat hids)
    (mapRestamp_keys_nodup tasks cat hids)
  · have hperm1 : List.Perm (catTasksSorted (rebalance_order_values tasks cat) cat)
        ((rebalance_order_values tasks cat).filter (fun t => t.category = cat)) :=
      List.perm_insertionSort ordLe _
    have heq2 : (rebalance_order_values tasks cat).filter (fun t => t.category = cat) =
        (tasks.filter (fun t => t.category = cat)).map (restampFun tasks cat) := by
      rw [rebalance_eq]
      exact filter_cat_map tasks cat (restampFun tasks cat) (restampFun_category tasks cat)
    have hperm3 : List.Perm ((tasks.filter (fun t => t.category = cat)).map
        (restampFun tasks cat)) ((catTasksSorted tasks cat).map (restampFun tasks cat)) :=
      List.Perm.map (restampFun tasks cat)
        (List.perm_insertionSort ordLe (tasks.filter (fun t => t.category = cat))).symm
    exact (hperm1.trans (heq2 ▸ List.Perm.refl _)).trans hperm3
  · exact List.sorted_insertionSort ordLe _

/-- C3: rebalancing a category reassigns the key of the k-th task (taken
ascending by current key) to exactly `(k + 1) * 1000`: the id sequence of
the sorted selection is unchanged and the keys afterwards are
1000, 2000, 3000, ... in the prior order.  Distinct ids are the primary
key guarantee of the `tasks` table. -/
theorem c3_rebalance_restamps (tasks : List TaskRow) (cat : Option String)
    (hids : (tasks.map (fun t => t.id)).Nodup) :
    (catTasksSorted (rebalance_order_values tasks cat) cat).map (fun t => t.id) =
      (catTasksSorted tasks cat).map (fun t => t.id) ∧
    ∀ k (hk : k < (catTasksSorted (rebalance_order_values tasks cat) cat).length),
      ((catTasksSorted (rebalance_order_values tasks cat) cat).get ⟨k, hk⟩).order_value =
        ((k : Int) + 1) * 1000 := by
  have heq := catTasksSorted_rebalance tasks cat hids
  constructor
  · rw [heq, List.map_map]
    exact List.map_congr_left (fun t _ => restampFun_id tasks cat t)
  · intro k hk
    have hk2 : k < (catTasksSorted tasks cat).length := by
      have h3 := hk
      rw [heq] at h3
      simpa using h3
    rw [List.get_eq_getElem, List.getElem_of_eq heq]
    simp only [List.getElem_map]
    rw [restampFun_sorted_getElem tasks cat hids k hk2]

/-- Witness for C3 on a store with two categories and unsorted keys. -/
theorem c3_rebalance_restamps_witness :
    (catTasksSorted (rebalance_order_values
        [⟨1, "a", "", .pending, none, 7⟩, ⟨2, "b", "", .pending, none, 3⟩,
          ⟨3, "c", "", .pending, some "w", 5⟩] none) none).map (fun t => t.id) =
      (catTasksSorted [⟨1, "a", "", .pending, none, 7⟩, ⟨2, "b", "", .pending, none, 3⟩,
          ⟨3, "c", "", .pending, some "w", 5⟩] none).map (fun t => t.id) ∧
    ∀ k (hk : k < (catTasksSorted (rebalance_order_values
        [⟨1, "a", "", .pending, none, 7⟩, ⟨2, "b", "", .pending, none, 3⟩,
          ⟨3, "c", "", .pending, some "w", 5⟩] none) none).length),
      ((catTasksSorted (rebalance_order_values
          [⟨1, "a", "", .pending, none, 7⟩, ⟨2, "b", "", .pending, none, 3⟩,
            ⟨3, "c", "", .pending, some "w", 5⟩] none) none).get ⟨k, hk⟩).order_value =
        ((k : Int) + 1) * 1000 :=
  c3_rebalance_restamps
    [⟨1, "a", "", .pending, none, 7⟩, ⟨2, "b", "", .pending, none, 3⟩,
      ⟨3, "c", "", .pending, some "w", 5⟩] none (by decide)

/-- The keys of a category after a rebalance are exactly
`(j + 1) * 1000` for the positions `j` of the sorted selection. -/
theorem catKeys_rebalance_mem (tasks : List TaskRow) (cat : Option String)
    (hids : (tasks.map (fun t => t.id)).Nodup) (x : Int) :
    x ∈ catKeys (rebalance_order_values tasks cat) cat ↔
      ∃ j, j < (catTasksSorted tasks cat).length ∧ x = ((j : Int) + 1) * 1000 := by
  have h1 : catKeys (rebalance_order_values tasks cat) cat =
      ((tasks.filter (fun t => t.category = cat)).map (restampFun tasks cat)).map
        (fun t => t.order_value) := by
    unfold catKeys
    rw [rebalance_eq, filter_cat_map tasks cat _ (restampFun_category tasks cat)]
  have hperm : List.Perm
      (((tasks.filter (fun t => t.category = cat)).map (restampFun tasks cat)).map
        (fun t => t.order_value))
      (((catTasksSorted tasks cat).map (restampFun tasks cat)).map
        (fun t => t.order_value)) :=
    List.Perm.map _ (List.Perm.map _
      (List.perm_insertionSort ordLe (tasks.filter (fun t => t.category = cat))).symm)
  rw [h1, hperm.mem_iff]
  constructor
  · intro hx
    rw [List.mem_iff_getElem] at hx
    obtain ⟨n, hn, hxe⟩ := hx
    have hn2 : n < (catTasksSorted tasks cat).length := by simpa using hn
    refine ⟨n, hn2, ?_⟩
    rw [← hxe]
    simp only [List.getElem_map]
    rw [restampFun_sorted_getElem tasks cat hids n hn2]
  · rintro ⟨j, hj, rfl⟩
    rw [List.mem_iff_getElem]
    refine ⟨j, by simpa using hj, ?_⟩
    simp only [List.getElem_map]
    rw [restampFun_sorted_getElem tasks cat hids j hj]

/-- In a rebalanced category the neighbors of any of its rows are exactly
1000 away: the gap the second allocation pass finds is 1000 on both
sides whenever the refetched reference row belongs to the target
category. -/
theorem rebalanced_gaps (tasks : List TaskRow) (cat : Option String)
    (hids : (tasks.map (fun t => t.id)).Nodup) (t2row : TaskRow)
    (hmem : t2row ∈ rebalance_order_values tasks cat) (hcat : t2row.category = cat) :
    (∀ p, prevKeyBelow (catKeys (rebalance_order_values tasks cat) cat)
        t2row.order_value = some p → t2row.order_value - p = 1000) ∧
    (∀ n, nextKeyAbove (catKeys (rebalance_order_values tasks cat) cat)
        t2row.order_value = some n → n - t2row.order_value = 1000) := by
  have hkey : t2row.order_value ∈ catKeys (rebalance_order_values tasks cat) cat :=
    List.mem_map_of_mem _ (List.mem_filter.mpr ⟨hmem, by simpa using hcat⟩)
  obtain ⟨j, hj, hjval⟩ := (catKeys_rebalance_mem tasks cat hids _).mp hkey
  constructor
  · intro p hp
    obtain ⟨hpmem, hplt, hpmax⟩ := prevKeyBelow_some hp
    obtain ⟨i, hi, hival⟩ := (catKeys_rebalance_mem tasks cat hids _).mp hpmem
    have hij : i < j := by omega
    have hj1 : j - 1 < (catTasksSorted tasks cat).length := by omega
    have hkey2 : (((j - 1 : Nat) : Int) + 1) * 1000 ∈
        catKeys (rebalance_order_values tasks cat) cat :=
      (catKeys_rebalance_mem tasks cat hids _).mpr ⟨j - 1, hj1, rfl⟩
    have hle := hpmax _ hkey2 (by omega)
    omega
  · intro n hn
    obtain ⟨hnmem, hnlt, hnmin⟩ := nextKeyAbove_some hn
    obtain ⟨i, hi, hival⟩ := (catKeys_rebalance_mem tasks cat hids _).mp hnmem
    have hij : j < i := by omega
    have hj1 : j + 1 < (catTasksSorted tasks cat).length := by omega
    have hkey2 : (((j + 1 : Nat) : Int) + 1) * 1000 ∈
        catKeys (rebalance_order_values tasks cat) cat :=
      (catKeys_rebalance_mem tasks cat hids _).mpr ⟨j + 1, hj1, rfl⟩
    have hle := hnmin _ hkey2 (by omega)
    omega

/-- Each single call runs the rebalancer at most once: every branch of the
two allocation helpers reports 0 or 1 rebalances. -/
theorem create_rebalances_le_one (tasks : List TaskRow) (new_id : Nat) (title : String)
    (cat : Option String) (aid bid : Option Nat) :
    (create_task_at_position tasks new_id title cat aid bid).rebalances ≤ 1 := by
  unfold create_task_at_position get_order_value_before get_next_order_value
  repeat' first
    | split
    | simp

/-- C4, counterexample to the claim as stated.  The before-task (id 1,
key 1001) lives in category "a" while the target is the NULL category with
single key 1000: the first pass finds gap 1 and rebalances, but since the
refetched before-key 1001 belongs to a foreign row the rebalance does not
re-space around it — the second pass finds prev = 1000, again a gap of 1
(not greater than 1), and returns 1000, duplicating an existing key. -/
theorem c4_second_pass_gap_can_stay_exhausted :
    get_order_value_before
        [⟨1, "x", "", .pending, some "a", 1001⟩, ⟨2, "y", "", .pending, none, 1000⟩] 1 none =
      ⟨[⟨1, "x", "", .pending, some "a", 1001⟩, ⟨2, "y", "", .pending, none, 1000⟩],
        1000, 1⟩ ∧
    (findTask (rebalance_order_values
        [⟨1, "x", "", .pending, some "a", 1001⟩, ⟨2, "y", "", .pending, none, 1000⟩] none)
        1).map (fun t => t.order_value) = some 1001 ∧
    prevKeyBelow (catKeys (rebalance_order_values
        [⟨1, "x", "", .pending, some "a", 1001⟩, ⟨2, "y", "", .pending, none, 1000⟩] none)
        none) 1001 = some 1000 ∧
    ¬ ((1001 : Int) - 1000 > 1) := by
  exact ⟨by decide, by decide, by decide, by decide⟩

/-- C4, amended: every `create_task_at_position` call invokes the
rebalancer at most once and always produces a key (the embedded allocation
is a total function with no loop or recursion); whenever the refetched
reference row of the second pass belongs to the target category — always
true on the after path, which checks the category, and true on the before
path unless the before-task is foreign — the second pass finds its
neighbors exactly 1000 away, a gap greater than 1. -/
theorem c4_single_rebalance_restores_gap (tasks : List TaskRow) (cat : Option String)
    (tid : Nat) (t2row : TaskRow)
    (hids : (tasks.map (fun t => t.id)).Nodup)
    (hfind : findTask (rebalance_order_values tasks cat) tid = some t2row)
    (hcat : t2row.category = cat) :
    (∀ new_id title aid bid,
      (create_task_at_position tasks new_id title cat aid bid).rebalances ≤ 1) ∧
    (∀ p, prevKeyBelow (catKeys (rebalance_order_values tasks cat) cat)
        t2row.order_value = some p → t2row.order_value - p = 1000) ∧
    (∀ n, nextKeyAbove (catKeys (rebalance_order_values tasks cat) cat)
        t2row.order_value = some n → n - t2row.order_value = 1000) := by
  refine ⟨fun new_id title aid bid => create_rebalances_le_one tasks new_id title cat aid bid,
    ?_, ?_⟩
  · exact (rebalanced_gaps tasks cat hids t2row (findTask_mem hfind).1 hcat).1
  · exact (rebalanced_gaps tasks cat hids t2row (findTask_mem hfind).1 hcat).2

/-- Witness for the amended C4: two NULL-category tasks with keys 5 and 7;
after the rebalance the refetched row id 2 carries key 2000 and both
neighbor gaps are 1000. -/
theorem c4_single_rebalance_restores_gap_witness :
    (∀ new_id title aid bid,
      (create_task_at_position [⟨1, "a", "", .pending, none, 5⟩,
          ⟨2, "b", "", .pending, none, 7⟩] new_id title none aid bid).rebalances ≤ 1) ∧
    (∀ p, prevKeyBelow (catKeys (rebalance_order_values [⟨1, "a", "", .pending, none, 5⟩,
          ⟨2, "b", "", .pending, none, 7⟩] none) none)
        (⟨2, "b", "", .pending, none, 2000⟩ : TaskRow).order_value = some p →
      (⟨2, "b", "", .pending, none, 2000⟩ : TaskRow).order_value - p = 1000) ∧
    (∀ n, nextKeyAbove (catKeys (rebalance_order_values [⟨1, "a", "", .pending, none, 5⟩,
          ⟨2, "b", "", .pending, none, 7⟩] none) none)
        (⟨2, "b", "", .pending, none, 2000⟩ : TaskRow).order_value = some n →
      n - (⟨2, "b", "", .pending, none, 2000⟩ : TaskRow).order_value = 1000) :=
  c4_single_rebalance_restores_gap
    [⟨1, "a", "", .pending, none, 5⟩, ⟨2, "b", "", .pending, none, 7⟩] none 2
    ⟨2, "b", "", .pending, none, 2000⟩ (by decide) (by decide) (by decide)

/-! ### Frame conditions for C7 -/

/-- The before-helper either leaves the store untouched (0 rebalances) or
returns the rebalanced store (1 rebalance). -/
theorem before_tasks_cases (tasks : List TaskRow) (bid : Nat) (cat : Option String) :
    ((get_order_value_before tasks bid cat).tasks = tasks ∧
      (get_order_value_before tasks bid cat).rebalances = 0) ∨
    ((get_order_value_before tasks bid cat).tasks = rebalance_order_values tasks cat ∧
      (get_order_value_before tasks bid cat).rebalances = 1) := by
  unfold get_order_value_before
  repeat' first
    | split
    | simp

/-- The after-helper either leaves the store untouched (0 rebalances) or
returns the rebalanced store (1 rebalance). -/
theorem after_tasks_cases (tasks : List TaskRow) (aid : Option Nat) (cat : Option String) :
    ((get_next_order_value tasks aid cat).tasks = tasks ∧
      (get_next_order_value tasks aid cat).rebalances = 0) ∨
    ((get_next_order_value tasks aid cat).tasks = rebalance_order_values tasks cat ∧
      (get_next_order_value tasks aid cat).rebalances = 1) := by
  unfold get_next_order_value
  repeat' first
    | split
    | simp

/-- Rebalancing one category rewrites no row of any other category. -/
theorem rebalance_filter_other (tasks : List TaskRow) (cat c : Option String)
    (hc : c ≠ cat) (hids : (tasks.map (fun t => t.id)).Nodup) :
    (rebalance_order_values tasks cat).filter (fun t => t.category = c) =
      tasks.filter (fun t => t.category = c) := by
  rw [rebalance_eq, filter_cat_map tasks c _ (restampFun_category tasks cat)]
  have hid : ∀ t ∈ tasks.filter (fun t => t.category = c), restampFun tasks cat t = id t := by
    intro t ht
    rw [List.mem_filter] at ht
    have htc : t.category = c := by simpa using ht.2
    have hnotmem : t.id ∉ (catTasksSorted tasks cat).map (fun u => u.id) := by
      intro hmemid
      rw [List.mem_map] at hmemid
      obtain ⟨u, hu, huid⟩ := hmemid
      have hu2 := mem_catTasksSorted.mp hu
      have htu : u = t := List.inj_on_of_nodup_map hids hu2.1 ht.1 huid
      rw [htu] at hu2
      exact hc (htc ▸ hu2.2.symm).symm
    unfold restampFun
    rw [if_neg hnotmem]
    rfl
  rw [List.map_congr_left hid, List.map_id]

/-- The shape of a positioned creation given the dichotomy on the helper
result: other categories are untouched, and with no rebalance the store is
exactly the old one plus the appended row. -/
theorem create_isolation_of_alloc (tasks : List TaskRow) (new_id : Nat) (title : String)
    (cat : Option String) (r : AllocResult)
    (hids : (tasks.map (fun t => t.id)).Nodup)
    (hd : (r.tasks = tasks ∧ r.rebalances = 0) ∨
          (r.tasks = rebalance_order_values tasks cat ∧ r.rebalances = 1)) :
    (∀ c, c ≠ cat → (r.tasks ++ ([⟨new_id, title, "", .pending, cat, r.key⟩] : List TaskRow)).filter
        (fun t => t.category = c) = tasks.filter (fun t => t.category = c)) ∧
    (r.rebalances = 0 → r.tasks ++ ([⟨new_id, title, "", .pending, cat, r.key⟩] : List TaskRow) =
        tasks ++ ([⟨new_id, title, "", .pending, cat, r.key⟩] : List TaskRow)) := by
  constructor
  · intro c hc
    rw [List.filter_append]
    have hrow : List.filter (fun t => t.category = c)
        [⟨new_id, title, "", .pending, cat, r.key⟩] = ([] : List TaskRow) := by
      rw [List.filter_cons]
      simp only [List.filter_nil]
      rw [if_neg]
      simp only [decide_eq_true_eq]
      exact fun h => hc (h ▸ rfl)
    rw [hrow, List.append_nil]
    rcases hd with ⟨he, _⟩ | ⟨he, _⟩
    · rw [he]
    · rw [he]
      exact rebalance_filter_other tasks cat c hc hids
  · intro h0
    rcases hd with ⟨he, _⟩ | ⟨_, h1⟩
    · rw [he]
    · rw [h1] at h0
      cases h0

/-- C7: a positioned creation targeting category `cat` changes no key of
any other category (the filtered selection of every other category is
untouched, keys and row order included), and a call that triggers no
rebalance changes no existing row at all: the result is exactly the old
store plus one appended row. -/
theorem c7_category_isolation (tasks : List TaskRow) (new_id : Nat) (title : String)
    (cat : Option String) (aid bid : Option Nat)
    (hids : (tasks.map (fun t => t.id)).Nodup) :
    (∀ c, c ≠ cat →
      (create_task_at_position tasks new_id title cat aid bid).tasks.filter
        (fun t => t.category = c) = tasks.filter (fun t => t.category = c)) ∧
    ((create_task_at_position tasks new_id title cat aid bid).rebalances = 0 →
      (create_task_at_position tasks new_id title cat aid bid).tasks =
        tasks ++ [(create_task_at_position tasks new_id title cat aid bid).created]) := by
  cases bid with
  | some b =>
    exact create_isolation_of_alloc tasks new_id title cat
      (get_order_value_before tasks b cat) hids (before_tasks_cases tasks b cat)
  | none =>
    exact create_isolation_of_alloc tasks new_id title cat
      (get_next_order_value tasks aid cat) hids (after_tasks_cases tasks aid cat)

/-- Witness for C7: an insertion into the NULL category that triggers a
rebalance there leaves category "w" untouched. -/
theorem c7_category_isolation_witness :
    (∀ c, c ≠ none →
      (create_task_at_position [⟨1, "a", "", .pending, none, 1000⟩,
          ⟨2, "b", "", .pending, none, 1001⟩, ⟨3, "c", "", .pending, some "w", 500⟩]
          4 "d" none none (some 2)).tasks.filter (fun t => t.category = c) =
        [⟨1, "a", "", .pending, none, 1000⟩, ⟨2, "b", "", .pending, none, 1001⟩,
          ⟨3, "c", "", .pending, some "w", 500⟩].filter (fun t => t.category = c)) ∧
    ((create_task_at_position [⟨1, "a", "", .pending, none, 1000⟩,
        ⟨2, "b", "", .pending, none, 1001⟩, ⟨3, "c", "", .pending, some "w", 500⟩]
        4 "d" none none (some 2)).rebalances = 0 →
      (create_task_at_position [⟨1, "a", "", .pending, none, 1000⟩,
          ⟨2, "b", "", .pending, none, 1001⟩, ⟨3, "c", "", .pending, some "w", 500⟩]
          4 "d" none none (some 2)).tasks =
        [⟨1, "a", "", .pending, none, 1000⟩, ⟨2, "b", "", .pending, none, 1001⟩,
          ⟨3, "c", "", .pending, some "w", 500⟩] ++
          [(create_task_at_position [⟨1, "a", "", .pending, none, 1000⟩,
              ⟨2, "b", "", .pending, none, 1001⟩, ⟨3, "c", "", .pending, some "w", 500⟩]
              4 "d" none none (some 2)).created]) :=
  c7_category_isolation
    [⟨1, "a", "", .pending, none, 1000⟩, ⟨2, "b", "", .pending, none, 1001⟩,
      ⟨3, "c", "", .pending, some "w", 500⟩] 4 "d" none none (some 2) (by decide)
